import Mathlib

/-!
Verification of the view-state logic of `src/components/Table/Table.tsx`.

The TypeScript component is shallowly embedded below:
* `Post` and `TableState` mirror the `Post` and `TableState` interfaces;
* `saveToLocalStorage` / `loadFromLocalStorage` mirror the two persistence
  helpers (the durable store value under the key is modelled as an
  `Option String`, and the dynamic value returned by `JSON.parse` as a
  `JsValue`);
* `JSON.stringify` / `JSON.parse` are platform built-ins, modelled by an
  executable serializer and parser over the JSON fragment the program
  actually stores (strings with the standard escapes, non-negative integer
  numbers, `null`, booleans, and flat objects; no whitespace skipping);
* the filter/sort effect body (lines 82-114) is embedded by
  `computeFilterSort`, which also tracks the in-place `Array.prototype.sort`
  mutation through array aliasing (`filtered = data` followed by
  `filtered.sort` sorts the raw array itself when no filter has replaced
  `filtered` with a fresh array);
* the event handlers `handleNextPage`, `handlePrevPage`, `handleSort` and
  `handleInputChange` are embedded as pure state transitions.
-/

/-- Mirrors the `Post` interface (line 9): `{ id: number; title: string; body: string }`. -/
structure Post where
  id : Int
  title : String
  body : String
deriving DecidableEq

/-- Mirrors `sortField: "id" | "title" | null` (line 18); `null` becomes `Option`. -/
inductive SortField : Type
  | id
  | title
deriving DecidableEq

/-- Mirrors `sortOrder: "asc" | "desc"` (line 19). -/
inductive SortOrder : Type
  | asc
  | desc
deriving DecidableEq

/-- Mirrors the `TableState` interface (lines 15-21). `page` is a JS number;
the program only ever constructs non-negative integers there, embedded as `Nat`. -/
structure TableState where
  searchQuery : String
  idFilter : String
  sortField : Option SortField
  sortOrder : SortOrder
  page : Nat
deriving DecidableEq

/-- The default state literal passed to `loadFromLocalStorage` (lines 42-48). -/
def defaultTableState : TableState :=
  { searchQuery := "", idFilter := "", sortField := none, sortOrder := .asc, page := 1 }

/-! ### JSON model

`JSON.stringify` / `JSON.parse` are ECMAScript built-ins, not repository
code.  They are modelled executably on the grammar fragment relevant to
this program: atoms are `null`, booleans, non-negative integer numbers and
strings; compound values are flat objects mapping string keys to atoms
(exactly the shape of a serialized `TableState`).  Strings are escaped and
unescaped with the standard JSON escapes. -/

/-- An atomic JSON value. -/
inductive JsAtom : Type
  | jnull
  | jbool (b : Bool)
  | jnum (n : Nat)
  | jstr (s : String)
deriving DecidableEq

/-- A JSON value: an atom, or a flat object with atomic fields. -/
inductive JsValue : Type
  | atom (a : JsAtom)
  | obj (fields : List (String × JsAtom))
deriving DecidableEq

/-- Lower-case hexadecimal digit for `d < 16`, as emitted by `JSON.stringify`
in `\u00XX` escapes. -/
def hexDigitChar (d : Nat) : Char :=
  if d < 10 then Char.ofNat (48 + d) else Char.ofNat (87 + d)

/-- Value of a hexadecimal digit character, as accepted by `JSON.parse`. -/
def hexVal (c : Char) : Option Nat :=
  if '0' ≤ c ∧ c ≤ '9' then some (c.toNat - 48)
  else if 'a' ≤ c ∧ c ≤ 'f' then some (c.toNat - 87)
  else if 'A' ≤ c ∧ c ≤ 'F' then some (c.toNat - 55)
  else none

/-- JSON escaping of a single character, as performed by `JSON.stringify`:
quote and backslash get two-character escapes, the named control characters
get their short escapes, all other control characters get `\u00XX`, and
every other character is emitted literally. -/
def escapeChar (c : Char) : List Char :=
  if c = '"' then ['\\', '"']
  else if c = '\\' then ['\\', '\\']
  else if c = '\x08' then ['\\', 'b']
  else if c = '\t' then ['\\', 't']
  else if c = '\n' then ['\\', 'n']
  else if c = '\x0c' then ['\\', 'f']
  else if c = '\r' then ['\\', 'r']
  else if c.toNat < 32 then
    ['\\', 'u', '0', '0', hexDigitChar (c.toNat / 16), hexDigitChar (c.toNat % 16)]
  else [c]

/-- The decimal digit characters of `n`, most significant first, as printed
by `JSON.stringify` for a non-negative integer number. -/
def natToDigits (n : Nat) : List Char :=
  if n = 0 then ['0']
  else (Nat.digits 10 n).reverse.map (fun d => Char.ofNat (48 + d))

/-- Numeric value of a list of decimal digit characters, most significant
first. -/
def digitsVal (cs : List Char) : Nat :=
  cs.foldl (fun a c => a * 10 + (c.toNat - 48)) 0

/-- Serialized form of a JSON string (quotes plus escaped content). -/
def stringifyString (s : String) : List Char :=
  '"' :: (s.data.flatMap escapeChar ++ ['"'])

/-- Serialized form of an atomic JSON value. -/
def stringifyAtom : JsAtom → List Char
  | .jnull => ['n', 'u', 'l', 'l']
  | .jbool true => ['t', 'r', 'u', 'e']
  | .jbool false => ['f', 'a', 'l', 's', 'e']
  | .jnum n => natToDigits n
  | .jstr s => stringifyString s

/-- Serialized form of the comma-separated members of a JSON object. -/
def stringifyMembers : List (String × JsAtom) → List Char
  | [] => []
  | [m] => stringifyString m.1 ++ ':' :: stringifyAtom m.2
  | m :: ms => stringifyString m.1 ++ ':' :: stringifyAtom m.2 ++ ',' :: stringifyMembers ms

/-- Serialized form of a JSON value (characters). -/
def jsonStringifyV : JsValue → List Char
  | .atom a => stringifyAtom a
  | .obj ms => '{' :: (stringifyMembers ms ++ ['}'])

/-- Model of `JSON.stringify` on the values this program stores. -/
def jsonStringify (v : JsValue) : String :=
  String.mk (jsonStringifyV v)

/-- Decoded character for a single-character JSON escape. -/
def escChar (e : Char) : Option Char :=
  if e = '"' then some '"'
  else if e = '\\' then some '\\'
  else if e = '/' then some '/'
  else if e = 'b' then some '\x08'
  else if e = 'f' then some '\x0c'
  else if e = 'n' then some '\n'
  else if e = 'r' then some '\r'
  else if e = 't' then some '\t'
  else none

/-- Parse the body of a JSON string after the opening quote, returning the
decoded characters and the remaining input after the closing quote.  A raw
control character or a malformed escape is an error, as in `JSON.parse`. -/
def parseStringBody : List Char → Except String (List Char × List Char)
  | [] => .error "unterminated string"
  | c :: rest =>
    if c = '"' then .ok ([], rest)
    else if c = '\\' then
      match rest with
      | [] => .error "bad escape"
      | e :: rest2 =>
        if e = 'u' then
          match rest2 with
          | h1 :: h2 :: h3 :: h4 :: rest3 =>
            match hexVal h1, hexVal h2, hexVal h3, hexVal h4 with
            | some a, some b, some c2, some d =>
              match parseStringBody rest3 with
              | .ok (s, r) => .ok (Char.ofNat (((a * 16 + b) * 16 + c2) * 16 + d) :: s, r)
              | .error m => .error m
            | _, _, _, _ => .error "bad unicode escape"
          | _ => .error "bad unicode escape"
        else
          match escChar e with
          | some ec =>
            match parseStringBody rest2 with
            | .ok (s, r) => .ok (ec :: s, r)
            | .error m => .error m
          | none => .error "bad escape"
    else if c.toNat < 32 then .error "control character in string"
    else
      match parseStringBody rest with
      | .ok (s, r) => .ok (c :: s, r)
      | .error m => .error m

/-- Consume an expected literal sequence of characters. -/
def expectChars : List Char → List Char → Option (List Char)
  | [], l => some l
  | e :: es, c :: l => if c = e then expectChars es l else none
  | _ :: _, [] => none

/-- Parse one atomic JSON value at the head of the input. -/
def parseAtom (l : List Char) : Except String (JsAtom × List Char) :=
  match l with
  | [] => .error "unexpected end of input"
  | c :: rest =>
    if c = '"' then
      match parseStringBody rest with
      | .ok (s, r) => .ok (.jstr (String.mk s), r)
      | .error m => .error m
    else if c = 'n' then
      match expectChars ['u', 'l', 'l'] rest with
      | some r => .ok (.jnull, r)
      | none => .error "bad literal"
    else if c = 't' then
      match expectChars ['r', 'u', 'e'] rest with
      | some r => .ok (.jbool true, r)
      | none => .error "bad literal"
    else if c = 'f' then
      match expectChars ['a', 'l', 's', 'e'] rest with
      | some r => .ok (.jbool false, r)
      | none => .error "bad literal"
    else if c.isDigit then
      let ds := List.takeWhile Char.isDigit (c :: rest)
      if c = '0' && ds.length != 1 then .error "leading zero"
      else .ok (.jnum (digitsVal ds), List.dropWhile Char.isDigit (c :: rest))
    else .error "unexpected character"

theorem parseStringBody_len : ∀ (l : List Char), ∀ s r, parseStringBody l = .ok (s, r) → r.length < l.length := by
  intro l
  induction l using parseStringBody.induct with
  | case1 => intro s r h; rw [parseStringBody.eq_def] at h; simp at h
  | case2 rest => intro s r h; rw [parseStringBody.eq_def] at h; simp at h; simp [h.2.symm]
  | case3 hne => intro s r h; rw [parseStringBody.eq_def] at h; simp at h
  | case4 h1 h2 h3 h4 rest3 a b c2 d hd hc hb ha s0 r0 hpsb hne ih =>
    intro s r h
    rw [parseStringBody.eq_def] at h
    simp [ha, hb, hc, hd, hpsb] at h
    have := ih s0 r0 hpsb
    simp [h.2.symm]
    omega
  | case5 h1 h2 h3 h4 rest3 a b c2 d hd hc hb ha m hpsb hne ih =>
    intro s r h
    rw [parseStringBody.eq_def] at h
    simp [ha, hb, hc, hd, hpsb] at h
  | case6 h1 h2 h3 h4 rest3 hfail hne =>
    intro s r h
    rw [parseStringBody.eq_def] at h
    cases ha : hexVal h1 <;> cases hb : hexVal h2 <;> cases hc : hexVal h3 <;> cases hd : hexVal h4 <;>
      first
        | exact (hfail _ _ _ _ ha hb hc hd).elim
        | simp [ha, hb, hc, hd] at h
  | case7 rest2 hshape hne =>
    intro s r h
    rw [parseStringBody.eq_def] at h
    rcases rest2 with _ | ⟨x1, _ | ⟨x2, _ | ⟨x3, _ | ⟨x4, t⟩⟩⟩⟩
    · simp at h
    · simp at h
    · simp at h
    · simp at h
    · exact (hshape x1 x2 x3 x4 t rfl).elim
  | case8 e rest2 hu ec hec s0 r0 hpsb hne ih =>
    intro s r h
    rw [parseStringBody.eq_def] at h
    simp [hu, hec, hpsb] at h
    have := ih s0 r0 hpsb
    simp [h.2.symm]
    omega
  | case9 e rest2 hu ec hec m hpsb hne ih =>
    intro s r h
    rw [parseStringBody.eq_def] at h
    simp [hu, hec, hpsb] at h
  | case10 e rest2 hu hec hne =>
    intro s r h
    rw [parseStringBody.eq_def] at h
    simp [hu, hec] at h
  | case11 e rest2 hq hbs hlt =>
    intro s r h
    rw [parseStringBody.eq_def] at h
    simp [hq, hbs, hlt] at h
  | case12 e rest2 hq hbs hge s0 r0 hpsb ih =>
    intro s r h
    rw [parseStringBody.eq_def] at h
    simp [hq, hbs, hge, hpsb] at h
    have := ih s0 r0 hpsb
    simp [h.2.symm]
    omega
  | case13 e rest2 hq hbs hge m hpsb ih =>
    intro s r h
    rw [parseStringBody.eq_def] at h
    simp [hq, hbs, hge, hpsb] at h

theorem hexVal_hexDigitChar (d : Nat) (h : d < 16) : hexVal (hexDigitChar d) = some d := by
  interval_cases d <;> decide

theorem parseStringBody_twochar {S tail : List Char} (e c : Char) (he : escChar e = some c)
    (hne : e ≠ 'u') (T : List Char) (hT : parseStringBody T = .ok (S, tail)) :
    parseStringBody ('\\' :: e :: T) = .ok (c :: S, tail) := by
  rw [parseStringBody.eq_def]
  simp [hne, he, hT]

theorem parseStringBody_escape : ∀ (s : List Char) (tail : List Char),
    parseStringBody (s.flatMap escapeChar ++ '"' :: tail) = .ok (s, tail) := by
  intro s
  induction s with
  | nil =>
    intro tail
    rw [parseStringBody.eq_def]
    simp
  | cons c cs ih =>
    intro tail
    simp only [List.flatMap_cons, List.append_assoc]
    by_cases hq : c = '"'
    · subst hq
      rw [show escapeChar '"' = ['\\', '"'] from rfl]
      exact parseStringBody_twochar '"' '"' (by decide) (by decide) _ (ih tail)
    · by_cases hbs : c = '\\'
      · subst hbs
        rw [show escapeChar '\\' = ['\\', '\\'] from rfl]
        exact parseStringBody_twochar '\\' '\\' (by decide) (by decide) _ (ih tail)
      · by_cases hb8 : c = '\x08'
        · subst hb8
          rw [show escapeChar '\x08' = ['\\', 'b'] from rfl]
          exact parseStringBody_twochar 'b' '\x08' (by decide) (by decide) _ (ih tail)
        · by_cases ht : c = '\t'
          · subst ht
            rw [show escapeChar '\t' = ['\\', 't'] from rfl]
            exact parseStringBody_twochar 't' '\t' (by decide) (by decide) _ (ih tail)
          · by_cases hn : c = '\n'
            · subst hn
              rw [show escapeChar '\n' = ['\\', 'n'] from rfl]
              exact parseStringBody_twochar 'n' '\n' (by decide) (by decide) _ (ih tail)
            · by_cases hf : c = '\x0c'
              · subst hf
                rw [show escapeChar '\x0c' = ['\\', 'f'] from rfl]
                exact parseStringBody_twochar 'f' '\x0c' (by decide) (by decide) _ (ih tail)
              · by_cases hr : c = '\r'
                · subst hr
                  rw [show escapeChar '\r' = ['\\', 'r'] from rfl]
                  exact parseStringBody_twochar 'r' '\r' (by decide) (by decide) _ (ih tail)
                · by_cases hlt : c.toNat < 32
                  · rw [show escapeChar c =
                        ['\\', 'u', '0', '0', hexDigitChar (c.toNat / 16), hexDigitChar (c.toNat % 16)] from by
                      simp [escapeChar, hq, hbs, hb8, ht, hn, hf, hr, hlt]]
                    have hdiv : c.toNat / 16 < 16 := by omega
                    have hmod : c.toNat % 16 < 16 := Nat.mod_lt _ (by norm_num)
                    have h0 : hexVal '0' = some 0 := by decide
                    rw [parseStringBody.eq_def]
                    simp only [List.cons_append]
                    simp [h0, hexVal_hexDigitChar _ hdiv, hexVal_hexDigitChar _ hmod, ih tail]
                    have harg : c.toNat / 16 * 16 + c.toNat % 16 = c.toNat := by omega
                    rw [harg, Char.ofNat_toNat]
                  · rw [show escapeChar c = [c] from by
                      simp [escapeChar, hq, hbs, hb8, ht, hn, hf, hr, hlt]]
                    rw [parseStringBody.eq_def]
                    simp [hq, hbs, hlt, ih tail]

theorem expectChars_len : ∀ (es l r : List Char), expectChars es l = some r →
    r.length + es.length = l.length := by
  intro es
  induction es with
  | nil =>
    intro l r h
    simp [expectChars] at h
    simp [h]
  | cons e es ih =>
    intro l r h
    match l with
    | [] => simp [expectChars] at h
    | c :: t =>
      simp only [expectChars] at h
      by_cases hc : c = e
      · simp only [if_pos hc] at h
        have := ih t r h
        simp [List.length_cons]
        omega
      · simp [if_neg hc] at h

theorem expectChars_exact : ∀ (es tail : List Char), expectChars es (es ++ tail) = some tail := by
  intro es
  induction es with
  | nil => intro tail; simp [expectChars]
  | cons e es ih => intro tail; simp [expectChars, ih]

theorem length_dropWhile_le (p : Char → Bool) : ∀ (l : List Char),
    (List.dropWhile p l).length ≤ l.length := by
  intro l
  induction l with
  | nil => simp [List.dropWhile]
  | cons c t ih =>
    simp only [List.dropWhile]
    cases p c
    · simp
    · simp
      omega

theorem takeWhile_append_all (p : Char → Bool) : ∀ (ds rest : List Char),
    (∀ c ∈ ds, p c = true) → (∀ c, rest.head? = some c → p c = false) →
    List.takeWhile p (ds ++ rest) = ds ∧ List.dropWhile p (ds ++ rest) = rest := by
  intro ds
  induction ds with
  | nil =>
    intro rest h1 h2
    match rest with
    | [] => simp
    | c :: t =>
      have := h2 c rfl
      simp [List.takeWhile_cons, List.dropWhile_cons, this]
  | cons d ds ih =>
    intro rest h1 h2
    have hd : p d = true := h1 d (by simp)
    have := ih rest (fun c hc => h1 c (by simp [hc])) h2
    simp [List.takeWhile_cons, List.dropWhile_cons, hd, this]

theorem parseAtom_len : ∀ {l : List Char} {a : JsAtom} {r : List Char},
    parseAtom l = .ok (a, r) → r.length < l.length := by
  intro l a r h
  match l with
  | [] => simp [parseAtom] at h
  | c :: rest =>
    rw [parseAtom.eq_def] at h
    by_cases hq : c = '"'
    · simp only [if_pos hq] at h
      cases hps : parseStringBody rest with
      | ok pr =>
        obtain ⟨s1, r1⟩ := pr
        simp [hps] at h
        have := parseStringBody_len rest s1 r1 hps
        simp [← h.2, List.length_cons]
        omega
      | error m => simp [hps] at h
    · simp only [if_neg hq] at h
      by_cases hn : c = 'n'
      · simp only [if_pos hn] at h
        cases hec : expectChars ['u', 'l', 'l'] rest with
        | some r2 =>
          simp [hec] at h
          have := expectChars_len _ _ _ hec
          simp [← h.2, List.length_cons] at this ⊢
          omega
        | none => simp [hec] at h
      · simp only [if_neg hn] at h
        by_cases hT : c = 't'
        · simp only [if_pos hT] at h
          cases hec : expectChars ['r', 'u', 'e'] rest with
          | some r2 =>
            simp [hec] at h
            have := expectChars_len _ _ _ hec
            simp [← h.2, List.length_cons] at this ⊢
            omega
          | none => simp [hec] at h
        · simp only [if_neg hT] at h
          by_cases hF : c = 'f'
          · simp only [if_pos hF] at h
            cases hec : expectChars ['a', 'l', 's', 'e'] rest with
            | some r2 =>
              simp [hec] at h
              have := expectChars_len _ _ _ hec
              simp [← h.2, List.length_cons] at this ⊢
              omega
            | none => simp [hec] at h
          · simp only [if_neg hF] at h
            by_cases hd : c.isDigit
            · simp only [if_pos hd] at h
              split at h
              · simp at h
              · simp at h
                have hr : r = List.dropWhile Char.isDigit (c :: rest) := h.2.symm
                have : List.dropWhile Char.isDigit (c :: rest) = List.dropWhile Char.isDigit rest := by
                  simp [List.dropWhile_cons, hd]
                rw [hr, this]
                have := length_dropWhile_le Char.isDigit rest
                simp [List.length_cons]
                omega
            · simp [hd] at h

theorem toNat_digitChar (x : Nat) (h : x < 10) : (Char.ofNat (48 + x)).toNat = 48 + x := by
  interval_cases x <;> decide

theorem isDigit_digitChar (x : Nat) (h : x < 10) : (Char.ofNat (48 + x)).isDigit = true := by
  interval_cases x <;> decide

theorem digitsVal_foldl (l : List Nat) : ∀ (a : Nat), (∀ d ∈ l, d < 10) →
    List.foldl (fun acc c => acc * 10 + (c.toNat - 48)) a
      (l.reverse.map (fun d => Char.ofNat (48 + d))) =
    a * 10 ^ l.length + Nat.ofDigits 10 l := by
  induction l with
  | nil => intro a h; simp
  | cons x t ih =>
    intro a h
    have hx : x < 10 := h x (by simp)
    have ht : ∀ d ∈ t, d < 10 := fun d hd => h d (by simp [hd])
    rw [List.reverse_cons, List.map_append, List.foldl_append, ih a ht]
    simp only [List.map_cons, List.map_nil, List.foldl_cons, List.foldl_nil]
    rw [toNat_digitChar x hx]
    rw [Nat.ofDigits_cons]
    simp [List.length_cons]
    ring

theorem digitsVal_natToDigits (n : Nat) : digitsVal (natToDigits n) = n := by
  by_cases h0 : n = 0
  · subst h0; decide
  · rw [natToDigits, if_neg h0]
    unfold digitsVal
    rw [digitsVal_foldl _ 0 (fun d hd => Nat.digits_lt_base (by norm_num) hd)]
    simp [Nat.ofDigits_digits]

theorem natToDigits_all_digits (n : Nat) : ∀ c ∈ natToDigits n, c.isDigit = true := by
  by_cases h0 : n = 0
  · subst h0; intro c hc; simp [natToDigits] at hc; subst hc; decide
  · rw [natToDigits, if_neg h0]
    intro c hc
    simp only [List.mem_map, List.mem_reverse] at hc
    obtain ⟨d, hd, rfl⟩ := hc
    exact isDigit_digitChar d (Nat.digits_lt_base (by norm_num) hd)

theorem natToDigits_ne_nil (n : Nat) : natToDigits n ≠ [] := by
  by_cases h0 : n = 0
  · subst h0; decide
  · rw [natToDigits, if_neg h0]
    simp [Nat.digits_ne_nil_iff_ne_zero.mpr h0]

theorem natToDigits_leading_zero (n : Nat) (c : Char) (t : List Char)
    (h : natToDigits n = c :: t) (hc : c = '0') : t = [] := by
  by_cases h0 : n = 0
  · subst h0
    simp [natToDigits] at h
    exact h.2
  · exfalso
    rw [natToDigits, if_neg h0] at h
    rcases List.eq_nil_or_concat (Nat.digits 10 n) with hnil | ⟨L, dlast, hL⟩
    · exact (Nat.digits_ne_nil_iff_ne_zero.mpr h0) hnil
    · rw [List.concat_eq_append] at hL
      have hdne : dlast ≠ 0 := by
        have hlast := Nat.getLast_digit_ne_zero 10 h0
        have h1 : (Nat.digits 10 n).getLast? = some dlast := by
          rw [hL]
          simp
        have h2 : (Nat.digits 10 n).getLast? =
            some ((Nat.digits 10 n).getLast (Nat.digits_ne_nil_iff_ne_zero.mpr h0)) :=
          List.getLast?_eq_getLast_of_ne_nil _
        rw [h1] at h2
        simp at h2
        rw [h2]
        exact hlast
      have hdlt : dlast < 10 :=
        Nat.digits_lt_base (by norm_num) (by rw [hL]; simp)
      rw [hL] at h
      simp only [List.reverse_append, List.reverse_cons, List.reverse_nil,
        List.nil_append, List.cons_append, List.map_cons] at h
      have hc1 : Char.ofNat (48 + dlast) = c := (List.cons.injEq _ _ _ _).mp h |>.1
      rw [hc, show ('0' : Char) = Char.ofNat (48 + 0) from by decide] at hc1
      have := congrArg Char.toNat hc1
      rw [toNat_digitChar dlast hdlt, toNat_digitChar 0 (by norm_num)] at this
      omega



theorem isDigit_ne_delims (c : Char) (h : c.isDigit = true) :
    c ≠ '"' ∧ c ≠ 'n' ∧ c ≠ 't' ∧ c ≠ 'f' ∧ c ≠ '{' := by
  refine ⟨?_, ?_, ?_, ?_, ?_⟩ <;> intro hc <;> subst hc <;> exact absurd h (by decide)


theorem parseAtom_stringify (a : JsAtom) (rest : List Char)
    (hrest : ∀ c, rest.head? = some c → c.isDigit = false) :
    parseAtom (stringifyAtom a ++ rest) = .ok (a, rest) := by
  match a with
  | .jnull =>
    rw [show stringifyAtom .jnull ++ rest = 'n' :: 'u' :: 'l' :: 'l' :: rest from by
      simp [stringifyAtom]]
    rw [parseAtom.eq_def]
    simp [expectChars]
  | .jbool true =>
    rw [show stringifyAtom (.jbool true) ++ rest = 't' :: 'r' :: 'u' :: 'e' :: rest from by
      simp [stringifyAtom]]
    rw [parseAtom.eq_def]
    simp [expectChars]
  | .jbool false =>
    rw [show stringifyAtom (.jbool false) ++ rest = 'f' :: 'a' :: 'l' :: 's' :: 'e' :: rest from by
      simp [stringifyAtom]]
    rw [parseAtom.eq_def]
    simp [expectChars]
  | .jstr s =>
    rw [show stringifyAtom (.jstr s) ++ rest = '"' :: (s.data.flatMap escapeChar ++ '"' :: rest) from by
      simp [stringifyAtom, stringifyString]]
    rw [parseAtom.eq_def]
    simp [parseStringBody_escape]
  | .jnum n =>
    rcases hn : natToDigits n with _ | ⟨c, t⟩
    · exact absurd hn (natToDigits_ne_nil n)
    · have hct : ∀ x ∈ c :: t, x.isDigit = true := by rw [← hn]; exact natToDigits_all_digits n
      have hc : c.isDigit = true := hct c (by simp)
      obtain ⟨hq, hNn, hNt, hNf, _⟩ := isDigit_ne_delims c hc
      have htw := takeWhile_append_all Char.isDigit (c :: t) rest hct hrest
      rw [show stringifyAtom (.jnum n) ++ rest = c :: (t ++ rest) from by
        simp [stringifyAtom, hn]]
      rw [parseAtom.eq_def]
      simp only [if_neg hq, if_neg hNn, if_neg hNt, if_neg hNf, if_pos hc]
      rw [show c :: (t ++ rest) = (c :: t) ++ rest from rfl]
      rw [htw.1, htw.2]
      by_cases hc0 : c = '0'
      · have ht0 : t = [] := natToDigits_leading_zero n c t hn hc0
        subst ht0
        have hv : digitsVal [c] = n := by
          rw [← hn]
          exact digitsVal_natToDigits n
        simp [hv]
      · have hv : digitsVal (c :: t) = n := by
          rw [← hn]
          exact digitsVal_natToDigits n
        simp [hv, hc0]

def parseMembersF : Nat → List Char → Except String (List (String × JsAtom) × List Char)
  | _, [] => .error "unterminated object"
  | 0, _ :: _ => .error "too many members"
  | fuel + 1, c :: rest =>
    if c = '}' then .ok ([], rest)
    else if c = '"' then
      match parseStringBody rest with
      | .error m => .error m
      | .ok (k, r1) =>
        match r1 with
        | ':' :: r2 =>
          match parseAtom r2 with
          | .error m => .error m
          | .ok (v, r3) =>
            match r3 with
            | '}' :: r4 => .ok ([(String.mk k, v)], r4)
            | ',' :: '"' :: r4 =>
              match parseMembersF fuel ('"' :: r4) with
              | .ok (ms, r5) => .ok ((String.mk k, v) :: ms, r5)
              | .error m => .error m
            | _ => .error "expected comma or closing brace"
        | _ => .error "expected colon"
    else .error "expected key"

def parseMembers (l : List Char) : Except String (List (String × JsAtom) × List Char) :=
  parseMembersF l.length l

theorem stringifyMembers_head (m : String × JsAtom) (ms : List (String × JsAtom)) :
    ∃ tl, stringifyMembers (m :: ms) = '"' :: tl := by
  match ms with
  | [] =>
    exact ⟨m.1.data.flatMap escapeChar ++ '"' :: ':' :: stringifyAtom m.2, by
      simp [stringifyMembers, stringifyString]⟩
  | m3 :: ms'' =>
    exact ⟨m.1.data.flatMap escapeChar ++ '"' :: ':' ::
        (stringifyAtom m.2 ++ ',' :: stringifyMembers (m3 :: ms'')), by
      simp [stringifyMembers, stringifyString]⟩

theorem parseMembersF_stringify (ms : List (String × JsAtom)) :
    ∀ (fuel : Nat) (rest : List Char), ms.length < fuel →
    parseMembersF fuel (stringifyMembers ms ++ '}' :: rest) = .ok (ms, rest) := by
  induction ms with
  | nil =>
    intro fuel rest hfuel
    match fuel with
    | 0 => exact absurd hfuel (by simp)
    | f + 1 =>
      rw [stringifyMembers, List.nil_append]
      simp [parseMembersF]
  | cons m ms ih =>
    intro fuel rest hfuel
    match fuel with
    | 0 => exact absurd hfuel (by simp)
    | f + 1 =>
      obtain ⟨k, a⟩ := m
      match ms with
      | [] =>
        rw [show stringifyMembers [(k, a)] ++ '}' :: rest
            = '"' :: (k.data.flatMap escapeChar ++ '"' :: (':' :: (stringifyAtom a ++ '}' :: rest))) from by
          simp [stringifyMembers, stringifyString]]
        have hpa : parseAtom (stringifyAtom a ++ '}' :: rest) = .ok (a, '}' :: rest) :=
          parseAtom_stringify a ('}' :: rest) (by intro c hc; simp at hc; rw [← hc]; decide)
        simp [parseMembersF, parseStringBody_escape, hpa]
      | m2 :: ms' =>
        obtain ⟨tl, htl⟩ := stringifyMembers_head m2 ms'
        rw [show stringifyMembers ((k, a) :: m2 :: ms') ++ '}' :: rest
            = '"' :: (k.data.flatMap escapeChar ++ '"' :: (':' :: (stringifyAtom a ++
                ',' :: '"' :: (tl ++ '}' :: rest)))) from by
          rw [show stringifyMembers ((k, a) :: m2 :: ms')
              = stringifyString k ++ ':' :: stringifyAtom a ++ ',' :: stringifyMembers (m2 :: ms') from
            rfl]
          rw [htl]
          simp [stringifyString]]
        have hpa : parseAtom (stringifyAtom a ++ ',' :: '"' :: (tl ++ '}' :: rest))
            = .ok (a, ',' :: '"' :: (tl ++ '}' :: rest)) :=
          parseAtom_stringify a _ (by intro c hc; simp at hc; rw [← hc]; decide)
        have hih : parseMembersF f ('"' :: (tl ++ '}' :: rest)) = .ok (m2 :: ms', rest) := by
          have := ih f rest (by simp at hfuel ⊢; omega)
          rw [htl] at this
          simpa using this
        simp [parseMembersF, parseStringBody_escape, hpa, hih]

/-- Top-level entry of the JSON parser: a whole text is a single object or
a single atom, with nothing left over. -/
def parseTop (l : List Char) : Except String JsValue :=
  match l with
  | [] => .error "unexpected end of input"
  | c :: rest =>
    if c = '{' then
      match parseMembers rest with
      | .ok (ms, []) => .ok (.obj ms)
      | .ok _ => .error "unexpected trailing characters"
      | .error m => .error m
    else
      match parseAtom (c :: rest) with
      | .ok (a, []) => .ok (.atom a)
      | .ok _ => .error "unexpected trailing characters"
      | .error m => .error m

/-- Model of `JSON.parse` on the grammar fragment this program stores. -/
def jsonParse (s : String) : Except String JsValue :=
  parseTop s.data

theorem stringifyMembers_length (ms : List (String × JsAtom)) :
    ms.length ≤ (stringifyMembers ms).length := by
  induction ms with
  | nil => simp [stringifyMembers]
  | cons m ms ih =>
    match ms with
    | [] => simp [stringifyMembers, stringifyString]
    | m2 :: ms' =>
      rw [show stringifyMembers (m :: m2 :: ms')
          = stringifyString m.1 ++ ':' :: stringifyAtom m.2 ++ ',' :: stringifyMembers (m2 :: ms') from
        rfl]
      simp only [List.length_append, List.length_cons, stringifyString, List.length_cons] at ih ⊢
      omega

theorem parseMembers_stringify (ms : List (String × JsAtom)) (rest : List Char) :
    parseMembers (stringifyMembers ms ++ '}' :: rest) = .ok (ms, rest) := by
  apply parseMembersF_stringify
  have := stringifyMembers_length ms
  simp only [List.length_append, List.length_cons]
  omega

theorem stringifyAtom_ne_nil (a : JsAtom) : stringifyAtom a ≠ [] := by
  match a with
  | .jnull => simp [stringifyAtom]
  | .jbool true => simp [stringifyAtom]
  | .jbool false => simp [stringifyAtom]
  | .jnum n => simp [stringifyAtom]; exact natToDigits_ne_nil n
  | .jstr s => simp [stringifyAtom, stringifyString]

theorem stringifyAtom_head_ne_brace (a : JsAtom) (c : Char) (t : List Char)
    (h : stringifyAtom a = c :: t) : c ≠ '{' := by
  match a with
  | .jnull => simp [stringifyAtom] at h; rw [← h.1]; decide
  | .jbool true => simp [stringifyAtom] at h; rw [← h.1]; decide
  | .jbool false => simp [stringifyAtom] at h; rw [← h.1]; decide
  | .jstr s => simp [stringifyAtom, stringifyString] at h; rw [← h.1]; decide
  | .jnum n =>
    simp only [stringifyAtom] at h
    have hc : c.isDigit = true := by
      apply natToDigits_all_digits n
      rw [h]
      simp
    exact (isDigit_ne_delims c hc).2.2.2.2

theorem jsonParse_stringify (v : JsValue) : jsonParse (jsonStringify v) = .ok v := by
  match v with
  | .obj ms =>
    show parseTop ('{' :: (stringifyMembers ms ++ ['}'])) = .ok (.obj ms)
    rw [parseTop.eq_def]
    simp only [if_pos rfl]
    rw [show stringifyMembers ms ++ ['}'] = stringifyMembers ms ++ '}' :: [] from rfl]
    rw [parseMembers_stringify ms []]
    simp
  | .atom a =>
    show parseTop (stringifyAtom a) = .ok (.atom a)
    rcases hsa : stringifyAtom a with _ | ⟨c, t⟩
    · exact absurd hsa (stringifyAtom_ne_nil a)
    · have hbr := stringifyAtom_head_ne_brace a c t hsa
      have hpa : parseAtom (c :: t) = .ok (a, []) := by
        rw [← hsa]
        rw [show stringifyAtom a = stringifyAtom a ++ [] from by simp]
        exact parseAtom_stringify a [] (by intro c hc; simp at hc)
      rw [parseTop.eq_def]
      simp [hbr, hpa]

/-! ### Persistence adapter (lines 23-33) -/

/-- JSON encoding of a `TableState`: the object `JSON.stringify` receives,
with fields in the insertion order of the state literal (lines 42-48).
A `null` sort field encodes as JSON `null`. -/
def encodeTableState (s : TableState) : JsValue :=
  .obj [("searchQuery", .jstr s.searchQuery),
        ("idFilter", .jstr s.idFilter),
        ("sortField", match s.sortField with
          | none => .jnull
          | some .id => .jstr "id"
          | some .title => .jstr "title"),
        ("sortOrder", .jstr (match s.sortOrder with | .asc => "asc" | .desc => "desc")),
        ("page", .jnum s.page)]

/-- Mirrors `saveToLocalStorage` (lines 23-25): the string written to the
durable store under the key is `JSON.stringify(value)`. -/
def saveToLocalStorage (value : TableState) : String :=
  jsonStringify (encodeTableState value)

/-- Mirrors `loadFromLocalStorage` (lines 27-33).  `storedValue` models
`localStorage.getItem(key)` (`none` = no entry).  The JS truthiness test
`storedValue ? ... : ...` treats the empty string like `null`.  A non-empty
stored string goes straight to `JSON.parse` with no exception handling, so a
parse failure propagates to the caller (`Except.error`), and a parsed value
is returned with no shape validation (a dynamic `JsValue`).  In the fallback
case the default is returned (as its encoding, `encodeTableState` being
injective). -/
def loadFromLocalStorage (storedValue : Option String) (defaultValue : TableState) :
    Except String JsValue :=
  match storedValue with
  | none => .ok (encodeTableState defaultValue)
  | some s => if s = "" then .ok (encodeTableState defaultValue) else jsonParse s

/-! ### Filter/sort engine (lines 82-114) -/

/-- Whitespace skipped by JS `parseInt` before the number (common subset). -/
def isJsSpace (c : Char) : Bool :=
  c = ' ' || c = '\t' || c = '\n' || c = '\r' || c = '\x0b' || c = '\x0c'

/-- Longest decimal-digit prefix, or `none` when there is none. -/
def digitsPrefix (t : List Char) : Option Nat :=
  let ds := t.takeWhile Char.isDigit
  if ds.isEmpty then none else some (digitsVal ds)

/-- Model of JS `parseInt(s, 10)` (line 95): skip leading whitespace, read an
optional sign and then the longest prefix of decimal digits, ignoring any
trailing characters; `none` models `NaN`. -/
def parseIntJS (s : String) : Option Int :=
  match s.data.dropWhile isJsSpace with
  | '-' :: t => (digitsPrefix t).map (fun n => -(n : Int))
  | '+' :: t => (digitsPrefix t).map (fun n => (n : Int))
  | cs => (digitsPrefix cs).map (fun n => (n : Int))

/-- JS `Math.min` on two numbers. -/
def jsMin (a b : Int) : Int := if a ≤ b then a else b

/-- JS `Math.max` on two numbers. -/
def jsMax (a b : Int) : Int := if a ≤ b then b else a

/-- The clamp applied to each parsed bound (line 95):
`Math.max(1, Math.min(100, parseInt(val, 10)))`. -/
def clampId (x : Int) : Int := jsMax 1 (jsMin 100 x)

/-- JS `split("-")` (line 94): splits at every dash, keeping empty pieces. -/
def splitDashAux : List Char → List Char → List String
  | [], acc => [String.mk acc.reverse]
  | '-' :: t, acc => String.mk acc.reverse :: splitDashAux t []
  | c :: t, acc => splitDashAux t (c :: acc)

/-- JS `idFilter.split("-")`. -/
def splitDash (s : String) : List String := splitDashAux s.data []

/-- Lines 93-97: split the filter text on dashes, run each piece through
`parseInt` and the clamp, and destructure the first two results as
`[minId, maxId]`.  `none` stands for `NaN` (a piece that does not parse, or
a missing piece, `undefined` also being `NaN` under `isNaN`), in which case
the guard `!isNaN(minId) && !isNaN(maxId)` fails. -/
def idBounds (idFilter : String) : Option (Int × Int) :=
  match ((splitDash idFilter)[0]?).bind parseIntJS, ((splitDash idFilter)[1]?).bind parseIntJS with
  | some a, some b => some (clampId a, clampId b)
  | _, _ => none

/-- The id-range filter pass (lines 97-101): when both bounds are numbers,
keep records with `minId ≤ id ≤ maxId`; otherwise leave the list alone. -/
def idFilterStep (idFilter : String) (l : List Post) : List Post :=
  match idBounds idFilter with
  | some (lo, hi) => l.filter (fun p => decide (lo ≤ p.id) && decide (p.id ≤ hi))
  | none => l

/-- Model of JS `toLowerCase` (ASCII case mapping). -/
def jsToLower (s : String) : String := String.mk (s.data.map Char.toLower)

/-- JS `includes`: substring test. -/
def containsSub (hay needle : List Char) : Bool :=
  match hay with
  | [] => needle.isEmpty
  | c :: t => needle.isPrefixOf (c :: t) || containsSub t needle

/-- The text filter predicate (lines 86-90): case-insensitive substring match
of the query against title or body. -/
def textFilterPred (q : String) (p : Post) : Bool :=
  containsSub (jsToLower p.title).data (jsToLower q).data ||
  containsSub (jsToLower p.body).data (jsToLower q).data

/-- The boolean order induced by the comparator of lines 104-110 (`-1` when
the first value is smaller under `asc`, reversed under `desc`; `le a b`
means the comparator does not put `a` after `b`). -/
def sortLe (fld : SortField) (ord : SortOrder) (a b : Post) : Bool :=
  match fld, ord with
  | .id, .asc => !decide (b.id < a.id)
  | .id, .desc => !decide (a.id < b.id)
  | .title, .asc => !decide (b.title < a.title)
  | .title, .desc => !decide (a.title < b.title)

/-- Insert into a sorted list, after any elements the order ties with. -/
def insertSorted (le : Post → Post → Bool) (x : Post) : List Post → List Post
  | [] => [x]
  | y :: t => if le x y then x :: y :: t else y :: insertSorted le x t

/-- Stable sort, modelling JS `Array.prototype.sort` (stable per the
ECMAScript specification) under a total preorder. -/
def insertionSort (le : Post → Post → Bool) : List Post → List Post
  | [] => []
  | x :: t => insertSorted le x (insertionSort le t)

/-- First component: is `filtered` still the same array as `data` (no filter
pass replaced it with a fresh array)?  Second: the filtered list.  Mirrors
lines 83-101: `let filtered = data` aliases the raw array, and each filter
that fires allocates a new array via `Array.prototype.filter`. -/
def applyFilters (data : List Post) (st : TableState) : Bool × List Post :=
  let p1 := if st.searchQuery = "" then (true, data)
            else (false, data.filter (textFilterPred st.searchQuery))
  match idBounds st.idFilter with
  | some (lo, hi) => (false, p1.2.filter (fun p => decide (lo ≤ p.id) && decide (p.id ≤ hi)))
  | none => p1

/-- The whole effect body (lines 82-114).  First component: the value stored
into `filteredData`.  Second: the raw `data` array after the effect —
`Array.prototype.sort` sorts in place, so when no filter fired (the alias
flag is true) and a sort field is set, the raw array itself ends up
sorted. -/
def computeFilterSort (data : List Post) (st : TableState) : List Post × List Post :=
  let fp := applyFilters data st
  match st.sortField with
  | some fld =>
    let sorted := insertionSort (sortLe fld st.sortOrder) fp.2
    (sorted, if fp.1 then sorted else data)
  | none => (fp.2, data)

/-- The filtered/sorted list the component renders from. -/
def filteredView (data : List Post) (st : TableState) : List Post :=
  (computeFilterSort data st).1

/-! ### Pagination and state transitions (lines 51, 144-169) -/

/-- `const itemsPerPage = 8` (line 51). -/
def itemsPerPage : Nat := 8

/-- `Math.ceil(filteredData.length / itemsPerPage)` (lines 145, 245, 250),
as a ceiling division on naturals.  Note: no `max(1, _)` in the code. -/
def pageCount (len : Nat) : Nat := (len + (itemsPerPage - 1)) / itemsPerPage

/-- `handleNextPage` (lines 144-148). -/
def handleNextPage (filteredData : List Post) (st : TableState) : TableState :=
  if st.page < pageCount filteredData.length then { st with page := st.page + 1 } else st

/-- `handlePrevPage` (lines 150-154). -/
def handlePrevPage (st : TableState) : TableState :=
  if 1 < st.page then { st with page := st.page - 1 } else st

/-- `handleSort` (lines 156-165). -/
def handleSort (field : SortField) (st : TableState) : TableState :=
  { st with
    sortField := some field,
    sortOrder := if st.sortField = some field ∧ st.sortOrder = .asc then .desc else .asc }

/-- The two text fields `handleInputChange` is invoked with (lines 180-196). -/
inductive TextField : Type
  | searchQuery
  | idFilter
deriving DecidableEq

/-- `handleInputChange` (lines 167-169): replace the named field and reset
`page` to 1. -/
def handleInputChange (field : TextField) (value : String) (st : TableState) : TableState :=
  match field with
  | .searchQuery => { st with searchQuery := value, page := 1 }
  | .idFilter => { st with idFilter := value, page := 1 }

example : splitDash "10-1" = ["10", "1"] := by decide
example : splitDash "" = [""] := by decide
example : splitDash "-" = ["", ""] := by decide
example : splitDash "a--b" = ["a", "", "b"] := by decide
example : parseIntJS "10" = some 10 := by decide
example : parseIntJS "" = none := by decide
example : parseIntJS "-5x" = some (-5) := by decide
example : parseIntJS " 42" = some 42 := by decide
example : idBounds "10-1" = some (10, 1) := by decide
example : idBounds "150-200" = some (100, 100) := by decide
example : idBounds "2-3" = some (2, 3) := by decide
example : idBounds "" = none := by decide
example : idBounds "5" = none := by decide
example : idBounds "5-" = none := by decide
example : idBounds "1-5-9" = some (1, 5) := by decide
example : pageCount 0 = 0 := by decide
example : pageCount 1 = 1 := by decide
example : pageCount 17 = 3 := by decide
example : pageCount 20 = 3 := by decide
example : containsSub "hello".data "ell".data = true := by decide
example : containsSub "hello".data "elo".data = false := by decide
example : textFilterPred "a" { id := 1, title := "Alpha", body := "x" } = true := by decide
example : textFilterPred "A" { id := 3, title := "Gamma", body := "z" } = true := by decide
example : jsonParse (saveToLocalStorage defaultTableState) = .ok (encodeTableState defaultTableState) :=
  jsonParse_stringify (encodeTableState defaultTableState)

theorem clampId_bounds (x : Int) : 1 ≤ clampId x ∧ clampId x ≤ 100 := by
  unfold clampId jsMax jsMin
  split <;> split <;> omega

/-- C1 counterexample: storing the corrupt (non-JSON) text `"x"` under the
key makes `loadFromLocalStorage` propagate the `JSON.parse` exception — it
does not return the supplied default. -/
theorem c1_counterexample :
    loadFromLocalStorage (some "x") defaultTableState = Except.error "unexpected character" ∧
    loadFromLocalStorage (some "x") defaultTableState
      ≠ Except.ok (encodeTableState defaultTableState) := by
  constructor
  · rfl
  · intro h
    rw [show loadFromLocalStorage (some "x") defaultTableState
        = Except.error "unexpected character" from rfl] at h
    exact Except.noConfusion h

/-- C1 (amended): `loadFromLocalStorage` returns the supplied default when
nothing (or an empty string) is stored under the key; when a non-empty
string is stored it returns exactly `JSON.parse` of it, so a corrupt stored
value makes the call throw instead of falling back to the default. -/
theorem c1_load_behavior (d : TableState) :
    loadFromLocalStorage none d = .ok (encodeTableState d) ∧
    loadFromLocalStorage (some "") d = .ok (encodeTableState d) ∧
    ∀ s : String, s ≠ "" → loadFromLocalStorage (some s) d = jsonParse s := by
  refine ⟨rfl, rfl, fun s hs => ?_⟩
  simp [loadFromLocalStorage, hs]

/-- C1 witness: the amended behavior at the stored text `"x"`. -/
theorem c1_load_behavior_witness :
    loadFromLocalStorage (some "x") defaultTableState = jsonParse "x" :=
  (c1_load_behavior defaultTableState).2.2 "x" (by decide)

/-- C2 counterexample: with an empty record list (so an empty filtered set)
the page count the program computes is `0`, not `max 1 (ceil (0 / 8)) = 1`. -/
theorem c2_counterexample :
    pageCount (filteredView [] defaultTableState).length = 0 ∧
    pageCount (filteredView [] defaultTableState).length
      ≠ max 1 (((filteredView [] defaultTableState).length + (itemsPerPage - 1)) / itemsPerPage) := by
  constructor
  · decide
  · decide

/-- C2 (amended): the page count the program computes is
`ceil (filteredCount / 8)` with no lower bound: it agrees with
`max 1 (ceil (filteredCount / 8))` exactly when the filtered set is
non-empty, and is `0` (not `≥ 1`) when the filtered set is empty. -/
theorem c2_pageCount (data : List Post) (st : TableState) :
    pageCount (filteredView data st).length
      = ((filteredView data st).length + (itemsPerPage - 1)) / itemsPerPage ∧
    (0 < (filteredView data st).length →
      pageCount (filteredView data st).length
        = max 1 (((filteredView data st).length + (itemsPerPage - 1)) / itemsPerPage)) ∧
    ((filteredView data st).length = 0 → pageCount (filteredView data st).length = 0) := by
  refine ⟨rfl, ?_, ?_⟩
  · intro h
    unfold pageCount itemsPerPage
    generalize (filteredView data st).length = n at h ⊢
    omega
  · intro h
    rw [h]
    decide

/-- C2 witness: the amended claim at a one-record list and the default
state (non-empty filtered set). -/
theorem c2_pageCount_witness :
    pageCount (filteredView [{ id := 1, title := "a", body := "b" }] defaultTableState).length
      = max 1 (((filteredView [{ id := 1, title := "a", body := "b" }] defaultTableState).length
          + (itemsPerPage - 1)) / itemsPerPage) :=
  (c2_pageCount [{ id := 1, title := "a", body := "b" }] defaultTableState).2.1 (by decide)

/-- C3 counterexample: with no active filter and sorting by id, the in-place
`Array.prototype.sort` reorders the raw record list itself (the `filtered`
binding still aliases `data`), so the raw list is not left unchanged. -/
theorem c3_counterexample :
    (computeFilterSort
        [{ id := 2, title := "b", body := "y" }, { id := 1, title := "a", body := "x" }]
        { searchQuery := "", idFilter := "", sortField := some .id, sortOrder := .asc, page := 1 }).2
      ≠ [{ id := 2, title := "b", body := "y" }, { id := 1, title := "a", body := "x" }] := by
  decide

/-- C3 (amended): the computation is a pure function of its inputs, and the
raw record list survives unchanged whenever some filter pass replaced the
aliased array (non-empty search query, or parsed id bounds) or no sort field
is set; but when a sort field is set and neither filter fired, the raw list
itself ends up sorted in place (it becomes the displayed sorted list). -/
theorem c3_no_mutation (data : List Post) (st : TableState) :
    (st.searchQuery ≠ "" ∨ idBounds st.idFilter ≠ none ∨ st.sortField = none →
      (computeFilterSort data st).2 = data) ∧
    (st.searchQuery = "" → idBounds st.idFilter = none →
      ∀ fld, st.sortField = some fld →
      (computeFilterSort data st).2 = insertionSort (sortLe fld st.sortOrder) data ∧
      (computeFilterSort data st).2 = (computeFilterSort data st).1) := by
  constructor
  · intro h
    unfold computeFilterSort applyFilters
    rcases hsf : st.sortField with _ | fld
    · simp
    · rcases h with hq | hb | hn
      · simp only [if_neg hq]
        cases hib : idBounds st.idFilter with
        | some bounds => obtain ⟨lo, hi⟩ := bounds; simp
        | none => simp
      · cases hib : idBounds st.idFilter with
        | some bounds => obtain ⟨lo, hi⟩ := bounds; simp
        | none => exact absurd hib hb
      · rw [hn] at hsf; cases hsf
  · intro hq hib fld hsf
    unfold computeFilterSort applyFilters
    simp [hq, hib, hsf]

/-- C3 witness: with the id filter `"1-2"` active, the raw list is left
unchanged even though a sort field is set. -/
theorem c3_no_mutation_witness :
    (computeFilterSort
        [{ id := 2, title := "b", body := "y" }, { id := 1, title := "a", body := "x" }]
        { searchQuery := "", idFilter := "1-2", sortField := some .id, sortOrder := .asc, page := 1 }).2
      = [{ id := 2, title := "b", body := "y" }, { id := 1, title := "a", body := "x" }] :=
  (c3_no_mutation _ _).1 (by right; left; decide)

/-- C4: when the id filter parses to clamped bounds in reversed order
(as `"10-1"` does: the bounds stay `(10, 1)`, they are not reordered), the
range test `minId ≤ id ∧ id ≤ maxId` is unsatisfiable and the filter pass
excludes every record. -/
theorem c4_reversed_bounds (idf : String) (l : List Post) (lo hi : Int)
    (hb : idBounds idf = some (lo, hi)) (hrev : hi < lo) :
    idFilterStep idf l = [] ∧ idBounds "10-1" = some (10, 1) := by
  constructor
  · unfold idFilterStep
    rw [hb]
    apply List.filter_eq_nil_iff.mpr
    intro p _
    simp only [Bool.and_eq_true, decide_eq_true_eq, not_and]
    intro h1 h2
    omega
  · decide

/-- C4 witness: the reversed range `"10-1"` empties a concrete list. -/
theorem c4_reversed_bounds_witness :
    idFilterStep "10-1" [{ id := 1, title := "a", body := "b" }] = [] ∧
    idBounds "10-1" = some (10, 1) :=
  c4_reversed_bounds "10-1" [{ id := 1, title := "a", body := "b" }] 10 1 (by decide) (by decide)

/-- C5: when both halves of the dash-split filter text parse as numbers, the
bounds used are exactly the two parsed values independently clamped into
`[1, 100]` (so `"150-200"` becomes the range `100-100`); when either half
fails to parse, the bounds are `NaN` and the id filter pass leaves the list
untouched. -/
theorem c5_clamping (idf : String) :
    (∀ a b : Int, ((splitDash idf)[0]?).bind parseIntJS = some a →
        ((splitDash idf)[1]?).bind parseIntJS = some b →
        idBounds idf = some (clampId a, clampId b) ∧
        1 ≤ clampId a ∧ clampId a ≤ 100 ∧ 1 ≤ clampId b ∧ clampId b ≤ 100) ∧
    (((splitDash idf)[0]?).bind parseIntJS = none ∨
        ((splitDash idf)[1]?).bind parseIntJS = none →
      idBounds idf = none) ∧
    (∀ l : List Post, idBounds idf = none → idFilterStep idf l = l) ∧
    idBounds "150-200" = some (100, 100) := by
  refine ⟨fun a b ha hb => ?_, fun h => ?_, fun l h => ?_, by decide⟩
  · unfold idBounds
    rw [ha, hb]
    exact ⟨rfl, (clampId_bounds a).1, (clampId_bounds a).2,
      (clampId_bounds b).1, (clampId_bounds b).2⟩
  · unfold idBounds
    rcases h with h | h
    · rw [h]
    · rw [h]
      cases ((splitDash idf)[0]?).bind parseIntJS <;> rfl
  · unfold idFilterStep
    rw [h]

/-- C5 witness: `"150-200"` parses to raw bounds 150 and 200, which clamp to
the range `100-100`. -/
theorem c5_clamping_witness :
    idBounds "150-200" = some (clampId 150, clampId 200) ∧
    1 ≤ clampId 150 ∧ clampId 150 ≤ 100 ∧ 1 ≤ clampId 200 ∧ clampId 200 ≤ 100 :=
  (c5_clamping "150-200").1 150 200 (by decide) (by decide)

theorem encodeTableState_inj : Function.Injective encodeTableState := by
  intro s t h
  obtain ⟨sq1, if1, sf1, so1, p1⟩ := s
  obtain ⟨sq2, if2, sf2, so2, p2⟩ := t
  simp only [encodeTableState, JsValue.obj.injEq, List.cons.injEq, Prod.mk.injEq,
    JsAtom.jstr.injEq, JsAtom.jnum.injEq, and_true, true_and] at h
  obtain ⟨hsq, hif, hsf, hso, hp⟩ := h
  subst hsq hif hp
  simp only [TableState.mk.injEq, and_true, true_and]
  constructor
  · rcases sf1 with _ | f1 <;> rcases sf2 with _ | f2
    · rfl
    · cases f2 <;> simp at hsf
    · cases f1 <;> simp at hsf
    · cases f1 <;> cases f2 <;> simp_all
  · cases so1 <;> cases so2 <;> simp_all

/-- C6: saving a `TableState` and loading it back succeeds and returns
exactly the saved state (its JSON value; the encoding into dynamic JSON
values is injective), for any default passed to the load. -/
theorem c6_roundtrip :
    (∀ (s d : TableState),
      loadFromLocalStorage (some (saveToLocalStorage s)) d = .ok (encodeTableState s)) ∧
    Function.Injective encodeTableState := by
  constructor
  · intro s d
    have hne : saveToLocalStorage s ≠ "" := by
      show jsonStringify (encodeTableState s) ≠ ""
      rw [jsonStringify, encodeTableState, jsonStringifyV]
      simp [String.ext_iff]
    simp only [loadFromLocalStorage, if_neg hne]
    exact jsonParse_stringify (encodeTableState s)
  · exact encodeTableState_inj

/-- C6 witness: the round trip at the default state. -/
theorem c6_roundtrip_witness :
    loadFromLocalStorage (some (saveToLocalStorage defaultTableState)) defaultTableState
      = .ok (encodeTableState defaultTableState) ∧ defaultTableState = defaultTableState :=
  ⟨c6_roundtrip.1 defaultTableState defaultTableState, c6_roundtrip.2 (by rfl)⟩

/-- C7 counterexample: starting from a state already sorted descending by
id, toggling the id column twice ends at descending order, not ascending. -/
theorem c7_counterexample :
    (handleSort .id (handleSort .id
        { searchQuery := "", idFilter := "", sortField := some .id, sortOrder := .desc,
          page := 1 })).sortOrder ≠ SortOrder.asc := by
  decide

/-- C7 (amended): `toggleSort(field)` flips the order when the field is
already the sort field and otherwise starts the new field ascending, never
touching page or the filters; hence toggling the same field twice restores
the original order when the field was already selected (so ends ascending
exactly when it started ascending), and ends descending when it was not. -/
theorem c7_toggle (st : TableState) (f : SortField) :
    (st.sortField = some f →
      handleSort f st
        = { st with sortOrder := if st.sortOrder = .asc then .desc else .asc }) ∧
    (st.sortField ≠ some f →
      handleSort f st = { st with sortField := some f, sortOrder := .asc }) ∧
    (handleSort f st).page = st.page ∧
    (handleSort f st).searchQuery = st.searchQuery ∧
    (handleSort f st).idFilter = st.idFilter ∧
    handleSort f (handleSort f st)
      = { st with sortField := some f,
                  sortOrder := if st.sortField = some f then st.sortOrder else .desc } := by
  refine ⟨fun hsf => ?_, fun hsf => ?_, rfl, rfl, rfl, ?_⟩
  · rcases hso : st.sortOrder with _ | _ <;>
      simp [handleSort, hsf, hso]
  · rcases hso : st.sortOrder with _ | _ <;>
      simp [handleSort, hsf, hso]
  · by_cases hsf : st.sortField = some f
    · rcases hso : st.sortOrder with _ | _ <;>
        simp [handleSort, hsf, hso]
    · rcases hso : st.sortOrder with _ | _ <;>
        simp [handleSort, hsf, hso]

/-- C7 witness: toggling a field that is not the current sort field starts
it ascending. -/
theorem c7_toggle_witness :
    handleSort .id defaultTableState
      = { defaultTableState with sortField := some .id, sortOrder := .asc } :=
  (c7_toggle defaultTableState .id).2.1 (by decide)

/-- C8: `setSearchQuery` / `setIdFilter` (both routed through
`handleInputChange`) replace exactly the named field, reset `page` to 1 and
leave every other field of the state unchanged. -/
theorem c8_input_change (st : TableState) (v : String) :
    ((handleInputChange .searchQuery v st).searchQuery = v ∧
     (handleInputChange .searchQuery v st).idFilter = st.idFilter ∧
     (handleInputChange .searchQuery v st).sortField = st.sortField ∧
     (handleInputChange .searchQuery v st).sortOrder = st.sortOrder ∧
     (handleInputChange .searchQuery v st).page = 1) ∧
    ((handleInputChange .idFilter v st).idFilter = v ∧
     (handleInputChange .idFilter v st).searchQuery = st.searchQuery ∧
     (handleInputChange .idFilter v st).sortField = st.sortField ∧
     (handleInputChange .idFilter v st).sortOrder = st.sortOrder ∧
     (handleInputChange .idFilter v st).page = 1) :=
  ⟨⟨rfl, rfl, rfl, rfl, rfl⟩, ⟨rfl, rfl, rfl, rfl, rfl⟩⟩

/-- C9: for any state with a valid page (`page ≥ 1`), `nextPage` adds
exactly 1 to the page iff the page is below the page count of the current
filtered data (the code's guard, `page < ceil (len / 8)`, agrees with
`page < max 1 (ceil (len / 8))` for valid pages) and otherwise changes
nothing; `prevPage` subtracts exactly 1 iff `page > 1` and otherwise
changes nothing. -/
theorem c9_paging (data : List Post) (st : TableState) (h : 1 ≤ st.page) :
    handleNextPage (filteredView data st) st
      = (if st.page < max 1 (pageCount (filteredView data st).length)
         then { st with page := st.page + 1 } else st) ∧
    handlePrevPage st
      = (if 1 < st.page then { st with page := st.page - 1 } else st) := by
  constructor
  · unfold handleNextPage
    have hiff : st.page < pageCount (filteredView data st).length ↔
        st.page < max 1 (pageCount (filteredView data st).length) := by
      generalize pageCount (filteredView data st).length = pc
      omega
    by_cases hlt : st.page < pageCount (filteredView data st).length
    · rw [if_pos hlt, if_pos (hiff.mp hlt)]
    · rw [if_neg hlt, if_neg (fun hc => hlt (hiff.mpr hc))]
  · rfl

/-- C9 witness: paging at the default state over an empty record list. -/
theorem c9_paging_witness :
    handleNextPage (filteredView [] defaultTableState) defaultTableState
      = (if defaultTableState.page
            < max 1 (pageCount (filteredView [] defaultTableState).length)
         then { defaultTableState with page := defaultTableState.page + 1 }
         else defaultTableState) ∧
    handlePrevPage defaultTableState
      = (if 1 < defaultTableState.page
         then { defaultTableState with page := defaultTableState.page - 1 }
         else defaultTableState) :=
  c9_paging [] defaultTableState (by decide)

/-- C10: `loadFromLocalStorage` does no shape validation — any non-empty
stored string accepted by `JSON.parse` is returned exactly as parsed, even
when it is not an object of `TableState` shape; the supplied default is used
only when nothing (or the empty string) is stored. -/
theorem c10_no_validation (d : TableState) :
    (∀ (s : String) (v : JsValue), s ≠ "" → jsonParse s = .ok v →
      loadFromLocalStorage (some s) d = .ok v) ∧
    loadFromLocalStorage none d = .ok (encodeTableState d) ∧
    loadFromLocalStorage (some "") d = .ok (encodeTableState d) := by
  refine ⟨fun s v hs hp => ?_, rfl, rfl⟩
  simp [loadFromLocalStorage, hs, hp]

/-- C10 witness: the stored text `"5"` is valid JSON but no `TableState`;
load returns the bare number, not the default. -/
theorem c10_no_validation_witness :
    loadFromLocalStorage (some "5") defaultTableState = .ok (.atom (.jnum 5)) :=
  (c10_no_validation defaultTableState).1 "5" (.atom (.jnum 5)) (by decide) (by rfl)
